import Mathlib

/-!
Verification development for the vscode-sass-prefix-resolver core.

The TypeScript sources are shallowly embedded:
* absolute file paths become lists of segments (`Path`),
* the file system / package-manifest reader becomes an explicit `FS` record,
* the regex scanners become character-list matchers with JS `matchAll`
  semantics (leftmost match, continue after the match end),
* `async` functions that may throw become `Except Unit` computations,
* the unbounded recursions of `ForwardResolver` take an explicit fuel
  argument; theorems about them quantify over the fuel above the depth
  actually reached, so the statements are independent of the cutoff.
-/

namespace SassPR

/-- JS `\w` character class (ASCII letters, digits, underscore). -/
def isWordC (c : Char) : Bool := c.isAlphanum || c = '_'

/-- JS `[\w-]` character class. -/
def isWordHy (c : Char) : Bool := isWordC c || c = '-'

/-- JS `\s` character class (the whitespace characters relevant here). -/
def isSpaceJS (c : Char) : Bool :=
  c = ' ' || c = '\t' || c = '\n' || c = '\r' || c = '\x0b' || c = '\x0c'

/-- Match a literal character sequence, returning the rest of the input. -/
def dropLit : List Char → List Char → Option (List Char)
  | [], l => some l
  | _ :: _, [] => none
  | c :: cs, x :: xs => if x = c then dropLit cs xs else none

/-- Take a maximal nonempty run of characters satisfying `p` (regex `p+`). -/
def take1 (p : Char → Bool) (l : List Char) : Option (List Char × List Char) :=
  match l.takeWhile p with
  | [] => none
  | r => some (r, l.dropWhile p)

/-- Skip a possibly empty run of characters satisfying `p` (regex `p*`). -/
def skipMany (p : Char → Bool) (l : List Char) : List Char := l.dropWhile p

/-- One character (regex `.`-like single consumption). -/
def uncons : List Char → Option (Char × List Char)
  | [] => none
  | c :: cs => some (c, cs)

/-- Literal sequence test used by the substring search. -/
def isPre : List Char → List Char → Bool
  | [], _ => true
  | _ :: _, [] => false
  | c :: cs, x :: xs => x = c && isPre cs xs

/-- Substring search over suffixes. -/
def containsSubAux (sub : List Char) : List Char → Bool
  | [] => isPre sub []
  | l@(_ :: tl) => isPre sub l || containsSubAux sub tl

/-- JS `String.prototype.includes`. -/
def containsSub (s sub : String) : Bool := containsSubAux sub.data s.data

/-- Split a character list at every occurrence of a separator. -/
def splitOnChar (sep : Char) : List Char → List (List Char)
  | [] => [[]]
  | c :: tl =>
    if c = sep then [] :: splitOnChar sep tl
    else
      match splitOnChar sep tl with
      | [] => [[c]]
      | h :: t => (c :: h) :: t

/-- JS `String.prototype.split("\n")`. -/
def splitLines (s : String) : List String := (splitOnChar '\n' s.data).map String.mk

/-- JS `String.prototype.split("/")` (for module-path segments). -/
def splitSlash (s : String) : List String := (splitOnChar '/' s.data).map String.mk

/-- JS `String.prototype.trim` (on the character sets occurring here). -/
def jsTrim (s : String) : String :=
  String.mk (((s.data.dropWhile isSpaceJS).reverse.dropWhile isSpaceJS).reverse)

/-- JS `String.prototype.startsWith`. -/
def strStarts (s p : String) : Bool := isPre p.data s.data

/-- JS `String.prototype.endsWith`. -/
def strEnds (s p : String) : Bool := isPre p.data.reverse s.data.reverse

/-- JS `String.prototype.matchAll` driver: at each index try the matcher;
on success record the column and resume after the match, otherwise advance
one character.  The fuel is instantiated with the input length, which is
always sufficient because every successful match consumes at least one
character. -/
def scanAt {α : Type} (tryAt : List Char → Option (α × List Char)) :
    Nat → Nat → List Char → List (Nat × α)
  | 0, _, _ => []
  | _ + 1, _, [] => []
  | fuel + 1, col, l@(_ :: tl) =>
    match tryAt l with
    | some (a, rest) => (col, a) :: scanAt tryAt fuel (col + (l.length - rest.length)) rest
    | none => scanAt tryAt fuel (col + 1) tl

/-- Run `scanAt` over a whole line. -/
def scanLine {α : Type} (tryAt : List Char → Option (α × List Char)) (line : String) :
    List (Nat × α) :=
  scanAt tryAt (line.data.length + 1) 0 line.data

/-! ## Paths and the file-system collaborator -/

/-- An absolute path, as the list of its segments from the root. -/
abbrev Path := List String

/-- `path.dirname`. -/
def dirname (p : Path) : Path := p.dropLast

/-- `path.basename`. -/
def basename (p : Path) : String := p.getLast?.getD ""

/-- Process one `/`-separated segment of a module path onto a base
directory (the segment handling of `path.resolve` / `path.join`). -/
def applySegment (acc : Path) (seg : String) : Path :=
  if seg = "." || seg = "" then acc
  else if seg = ".." then acc.dropLast
  else acc ++ [seg]

/-- `path.resolve(base, rel)` for the relative specifiers used here. -/
def resolveSegs (base : Path) (rel : String) : Path :=
  (splitSlash rel).foldl applySegment base

/-- `path.join(p, s)` where `s` may itself contain `/` separators. -/
def joinPath (p : Path) (s : String) : Path :=
  (splitSlash s).foldl applySegment p

/-- Append a file extension to the last segment (the template-string
construction `` `${basePath}.scss` ``). -/
def addExt (p : Path) (ext : String) : Path :=
  p.dropLast ++ [(p.getLast?.getD "") ++ ext]

/-- A parsed `package.json` (only the two fields the resolver reads). -/
structure Manifest where
  sass : Option String
  style : Option String
  deriving DecidableEq, Repr

/-- The file-system collaborator: regular files with their text content,
existing directories, and the parse of each parseable `package.json`. -/
structure FS where
  files : List (Path × String)
  dirs : List Path
  manifests : List (Path × Manifest)
  deriving Repr

/-- `fileExists` (true for readable files and directories). -/
def fileExists (fs : FS) (p : Path) : Bool :=
  fs.files.any (fun e => e.1 = p) || fs.dirs.any (fun d => d = p)

/-- `readFile`: returns the content or throws (modelled as `Except.error`). -/
def readFileE (fs : FS) (p : Path) : Except Unit String :=
  match fs.files.find? (fun e => e.1 = p) with
  | some e => .ok e.2
  | none => .error ()

/-- `readPackageJson`: read and parse, any failure giving `none`. -/
def readPackageJson (fs : FS) (p : Path) : Option Manifest :=
  (fs.manifests.find? (fun e => e.1 = p)).map (fun e => e.2)

/-- JS `a || b` on the optional string fields of a manifest (the empty
string is falsy). -/
def jsOr (a b : Option String) : Option String :=
  match a with
  | some s => if s = "" then b else some s
  | none => b

/-! ## ModuleResolver -/

/-- The ordered candidate list of `resolveRelativePath`. -/
def relativeCandidates (basePath : Path) : List Path :=
  [ addExt basePath ".scss"
  , addExt basePath ".sass"
  , basePath ++ ["_index.scss"]
  , basePath ++ ["_index.sass"]
  , basePath ++ ["index.scss"]
  , basePath ++ ["index.sass"]
  , dirname basePath ++ ["_" ++ basename basePath ++ ".scss"]
  , dirname basePath ++ ["_" ++ basename basePath ++ ".sass"] ]

/-- `ModuleResolver.resolveRelativePath`. -/
def resolveRelativePath (fs : FS) (modulePath : String) (currentFilePath : Path) :
    Option Path :=
  let basePath := resolveSegs (dirname currentFilePath) modulePath
  (relativeCandidates basePath).find? (fileExists fs)

/-- The ordered fallback candidate list of `resolveInNodeModules`. -/
def nodeModulesCandidates (packagePath : Path) : List Path :=
  [ packagePath ++ ["index.scss"]
  , packagePath ++ ["_index.scss"]
  , packagePath ++ ["index.sass"]
  , packagePath ++ ["_index.sass"]
  , addExt packagePath ".scss"
  , addExt packagePath ".sass"
  , dirname packagePath ++ ["_" ++ basename packagePath ++ ".scss"]
  , dirname packagePath ++ ["_" ++ basename packagePath ++ ".sass"] ]

/-- The `package.json` branch of `resolveInNodeModules`: the entry path is
used only when a manifest parses, a `sass` or `style` field is truthy, and
the named entry file exists. -/
def manifestResolution (fs : FS) (packagePath : Path) : Option Path :=
  if fileExists fs (packagePath ++ ["package.json"]) then
    match readPackageJson fs (packagePath ++ ["package.json"]) with
    | none => none
    | some pj =>
      match jsOr pj.sass pj.style with
      | none => none
      | some entry =>
        let entryPath := joinPath packagePath entry
        if fileExists fs entryPath then some entryPath else none
  else none

/-- `ModuleResolver.resolveInNodeModules`. -/
def resolveInNodeModules (fs : FS) (modulePath : String) (nodeModulesPath : Path) :
    Option Path :=
  let packagePath := joinPath nodeModulesPath modulePath
  match manifestResolution fs packagePath with
  | some p => some p
  | none => (nodeModulesCandidates packagePath).find? (fileExists fs)

/-- The upward `node_modules` walk of `resolvePackagePath` (the `while`
loop; it stops after trying the workspace root or the file-system root).
Each iteration strictly shortens `dir` until it is empty, at which point
`dirname dir = dir` breaks the loop, so a fuel of `dir.length + 1` makes
the structural recursion exactly the unbounded loop. -/
def packageLoop (fs : FS) (modulePath : String) (workspaceRoot : Path) :
    Nat → Path → Option Path
  | 0, _ => none
  | fuel + 1, dir =>
    let nm := dir ++ ["node_modules"]
    let tryHere := if fileExists fs nm then resolveInNodeModules fs modulePath nm else none
    match tryHere with
    | some r => some r
    | none =>
      if dirname dir = dir ∨ dir = workspaceRoot then none
      else packageLoop fs modulePath workspaceRoot fuel (dirname dir)

/-- `ModuleResolver.resolvePackagePath`. -/
def resolvePackagePath (fs : FS) (modulePath : String) (currentFilePath : Path)
    (workspaceRoot : Path) : Option Path :=
  packageLoop fs modulePath workspaceRoot ((dirname currentFilePath).length + 1)
    (dirname currentFilePath)

/-- `ModuleResolver.resolveModule`. -/
def resolveModule (fs : FS) (modulePath : String) (currentFilePath : Path)
    (workspaceRoot : Path) : Option Path :=
  if strStarts modulePath "sass:" then none
  else if strStarts modulePath "./" || strStarts modulePath "../" then
    resolveRelativePath fs modulePath currentFilePath
  else
    resolvePackagePath fs modulePath currentFilePath workspaceRoot

/-! ## Declaration scanners (the regex patterns as character matchers) -/

/-- A parsed re-export (`@forward`) declaration.  `pfx` holds the stored
rename string `match[2] + "-"`, or `none` when the `as` clause is absent. -/
structure ForwardStatement where
  path : String
  pfx : Option String
  line : Nat
  deriving DecidableEq, Repr

/-- A parsed `@use` declaration. -/
structure UseStatement where
  path : String
  ns : String
  line : Nat
  deriving DecidableEq, Repr

/-- The optional `\s+as\s+([\w-]+)-\*` tail of the `@forward` pattern.
The greedy `[\w-]+` run followed by `-\*` matches exactly when the full
word-hyphen run ends in `-` (and has a nonempty capture) and is followed
by `*`; the stored rename string `match[2] + "-"` is then the full run. -/
def asClauseFwd (l : List Char) : Option (String × List Char) :=
  match take1 isSpaceJS l with
  | none => none
  | some (_, r1) =>
    match dropLit ['a', 's'] r1 with
    | none => none
    | some r2 =>
      match take1 isSpaceJS r2 with
      | none => none
      | some (_, r3) =>
        match take1 isWordHy r3 with
        | none => none
        | some (run, r4) =>
          if run.getLast? = some '-' ∧ 2 ≤ run.length then
            match uncons r4 with
            | some (c, r5) => if c = '*' then some (String.mk run, r5) else none
            | none => none
          else none

/-- One match of `FORWARD_PATTERN` at the current position. -/
def fwdAt (l : List Char) : Option ((String × Option String) × List Char) :=
  match dropLit "@forward".data l with
  | none => none
  | some r1 =>
    match take1 isSpaceJS r1 with
    | none => none
    | some (_, r2) =>
      match uncons r2 with
      | none => none
      | some (q, r3) =>
        if q = '\x22' ∨ q = '\x27' then
          match take1 (fun c => !(c = '\x22' || c = '\x27')) r3 with
          | none => none
          | some (pathChars, r4) =>
            match uncons r4 with
            | none => none
            | some (q2, r5) =>
              if q2 = '\x22' ∨ q2 = '\x27' then
                match asClauseFwd r5 with
                | some (p, r6) => some ((String.mk pathChars, some p), r6)
                | none => some ((String.mk pathChars, none), r5)
              else none
        else none

/-- `ForwardResolver.parseForwardStatements`. -/
def parseForwardStatements (content : String) : List ForwardStatement :=
  (splitLines content).enum.flatMap (fun p =>
    if strStarts (jsTrim p.2) "//" then []
    else (scanLine fwdAt p.2).map (fun m => ⟨m.2.1, m.2.2, p.1⟩))

/-- The optional `\s+as\s+([\w-]+)` tail of the `@use` pattern. -/
def asClauseUse (l : List Char) : Option (String × List Char) :=
  match take1 isSpaceJS l with
  | none => none
  | some (_, r1) =>
    match dropLit ['a', 's'] r1 with
    | none => none
    | some r2 =>
      match take1 isSpaceJS r2 with
      | none => none
      | some (_, r3) =>
        match take1 isWordHy r3 with
        | none => none
        | some (run, r4) => some (String.mk run, r4)

/-- One match of `USE_PATTERN` at the current position. -/
def useAt (l : List Char) : Option ((String × Option String) × List Char) :=
  match dropLit "@use".data l with
  | none => none
  | some r1 =>
    match take1 isSpaceJS r1 with
    | none => none
    | some (_, r2) =>
      match uncons r2 with
      | none => none
      | some (q, r3) =>
        if q = '\x22' ∨ q = '\x27' then
          match take1 (fun c => !(c = '\x22' || c = '\x27')) r3 with
          | none => none
          | some (pathChars, r4) =>
            match uncons r4 with
            | none => none
            | some (q2, r5) =>
              if q2 = '\x22' ∨ q2 = '\x27' then
                match asClauseUse r5 with
                | some (nsp, r6) => some ((String.mk pathChars, some nsp), r6)
                | none => some ((String.mk pathChars, none), r5)
              else none
        else none

/-- `UseResolver.extractDefaultNamespace`. -/
def extractDefaultNamespace (path : String) : String :=
  let lastPart := (splitSlash path).getLast?.getD ""
  let noBuiltin := if strStarts lastPart "sass:" then lastPart.drop 5 else lastPart
  let noExtension :=
    if strEnds noBuiltin ".scss" || strEnds noBuiltin ".sass" then
      noBuiltin.dropRight 5
    else noBuiltin
  if strStarts noExtension "_" then noExtension.drop 1 else noExtension

/-- `UseResolver.parseUseStatements`. -/
def parseUseStatements (content : String) : List UseStatement :=
  (splitLines content).enum.flatMap (fun p =>
    if strStarts (jsTrim p.2) "//" then []
    else (scanLine useAt p.2).map (fun m =>
      ⟨m.2.1, (m.2.2).getD (extractDefaultNamespace m.2.1), p.1⟩))

/-- `UseResolver.findUseByNamespace`. -/
def findUseByNamespace (content : String) (ns : String) : Option UseStatement :=
  (parseUseStatements content).find? (fun stmt => stmt.ns = ns)

/-- One declared mixin argument. -/
structure MixinParameter where
  name : String
  defaultValue : Option String
  line : Nat
  column : Nat
  deriving DecidableEq, Repr

/-- A located mixin definition (`parameters` is set only by the
parameter-aware entry points, mirroring the optional field). -/
structure MixinDefinition where
  name : String
  filePath : Path
  line : Nat
  column : Nat
  parameters : Option (List MixinParameter)
  deriving DecidableEq, Repr

/-- A located variable definition. -/
structure VariableDefinition where
  name : String
  filePath : Path
  line : Nat
  column : Nat
  value : Option String
  deriving DecidableEq, Repr

/-- One match of `MIXIN_PATTERN` at the current position. -/
def mixinAt (l : List Char) : Option (String × List Char) :=
  match dropLit "@mixin".data l with
  | none => none
  | some r1 =>
    match take1 isSpaceJS r1 with
    | none => none
    | some (_, r2) =>
      match take1 isWordHy r2 with
      | none => none
      | some (nm, r3) =>
        let r4 := skipMany isSpaceJS r3
        match uncons r4 with
        | some (c, r5) => if c = '(' ∨ c = '\x7b' then some (String.mk nm, r5) else none
        | none => none

/-- One match of `VARIABLE_PATTERN` at the current position; also returns
the input suffix following the matched colon (needed for the value text). -/
def varAt (l : List Char) : Option ((String × List Char) × List Char) :=
  match uncons l with
  | none => none
  | some (d, r1) =>
    if d = '$' then
      match take1 isWordHy r1 with
      | none => none
      | some (nm, r2) =>
        let r3 := skipMany isSpaceJS r2
        match uncons r3 with
        | some (c, r4) => if c = ':' then some (("$" ++ String.mk nm, r4), r4) else none
        | none => none
    else none

/-- The per-name variable pattern `` `${escapedVarName}\s*:` ``. -/
def varDefAt (nm : List Char) (l : List Char) : Option (Unit × List Char) :=
  match dropLit nm l with
  | none => none
  | some r1 =>
    let r2 := skipMany isSpaceJS r1
    match uncons r2 with
    | some (c, r3) => if c = ':' then some ((), r3) else none
    | none => none

/-- The parameter-position pattern `` `\$\s*${paramName}\b` ``; the word
boundary compares the word-ness of the name's last character with that of
the following character (end of input counting as non-word). -/
def boundAt (nm : List Char) (l : List Char) : Option (Unit × List Char) :=
  match uncons l with
  | none => none
  | some (d, r1) =>
    if d = '$' then
      let r2 := skipMany isSpaceJS r1
      match dropLit nm r2 with
      | none => none
      | some r3 =>
        let leftW := match nm.getLast? with | some c => isWordC c | none => false
        let rightW := match r3.head? with | some c => isWordC c | none => false
        if leftW ≠ rightW then some ((), r3) else none
    else none

/-- The parameter-token pattern `\$\s*([\w-]+)(?:\s*:\s*(.+))?` (a `.`
does not match a newline, so the default-value capture stops at a line
break inside a multi-line token; a whitespace-only capture trims to the
empty string, which the caller turns into no default, matching the
backtracking outcomes of the JS pattern). -/
def paramTokenAt (l : List Char) : Option ((String × Option String) × List Char) :=
  match uncons l with
  | none => none
  | some (d, r1) =>
    if d = '$' then
      let r2 := skipMany isSpaceJS r1
      match take1 isWordHy r2 with
      | none => none
      | some (nm, r3) =>
        let attempt : Option (List Char × List Char) :=
          match uncons (skipMany isSpaceJS r3) with
          | some (c, r5) =>
            if c = ':' then
              match take1 (fun ch => ch ≠ '\n') (skipMany isSpaceJS r5) with
              | some (v, r7) => some (v, r7)
              | none => none
            else none
          | none => none
        match attempt with
        | some (v, r7) => some ((String.mk nm, some (String.mk v)), r7)
        | none => some ((String.mk nm, none), r3)
    else none

/-! ## SassParser -/

/-- The character loop of `extractArgumentsString` over one line;
`Except.error` carries the finished argument string (the early return on
the closing parenthesis). -/
def eaLine : List Char → Bool → Nat → List Char →
    Except (List Char) (Bool × Nat × List Char)
  | [], fnd, d, acc => .ok (fnd, d, acc)
  | c :: tl, fnd, d, acc =>
    if c = '(' then
      let d1 := d + 1
      if d1 = 1 then eaLine tl true d1 acc
      else eaLine tl true d1 (acc ++ [c])
    else if fnd && decide (0 < d) then
      if c = ')' then
        if d = 1 then .error acc
        else eaLine tl fnd (d - 1) (acc ++ [c])
      else eaLine tl fnd d (acc ++ [c])
    else eaLine tl fnd d acc

/-- The line loop of `extractArgumentsString` (a still-open group appends
a newline at each line break; running out of lines yields `none`). -/
def eaLines : List String → Bool → Nat → List Char → Option (List Char)
  | [], _, _, _ => none
  | l :: ls, fnd, d, acc =>
    match eaLine l.data fnd d acc with
    | .error res => some res
    | .ok (fnd', d', acc') =>
      let acc2 := if fnd' && decide (0 < d') then acc' ++ ['\n'] else acc'
      eaLines ls fnd' d' acc2

/-- `SassParser.extractArgumentsString`. -/
def extractArgumentsString (lines : List String) (startLine : Nat) : Option String :=
  (eaLines (lines.drop startLine) false 0 []).map String.mk

/-- The depth-aware comma split of `splitArguments`. -/
def splitArgsLoop : List Char → Int → List Char → List String → List String
  | [], _, cur, acc =>
    if jsTrim (String.mk cur) = "" then acc else acc ++ [jsTrim (String.mk cur)]
  | c :: tl, d, cur, acc =>
    let d1 := if c = '(' ∨ c = '\x7b' then d + 1 else d
    let d2 := if c = ')' ∨ c = '\x7d' then d1 - 1 else d1
    if c = ',' ∧ d2 = 0 then splitArgsLoop tl d2 [] (acc ++ [jsTrim (String.mk cur)])
    else splitArgsLoop tl d2 (cur ++ [c]) acc

/-- `SassParser.splitArguments`. -/
def splitArguments (argsString : String) : List String :=
  splitArgsLoop argsString.data 0 [] []

/-- The scan window of `calculateParameterPosition`. -/
def calcLoop (nm : String) : List (Nat × String) → Option (Nat × Nat)
  | [] => none
  | (i, line) :: rest =>
    match (scanLine (boundAt nm.data) line).head? with
    | some (col, _) => some (i, col)
    | none => calcLoop nm rest

/-- `SassParser.calculateParameterPosition`: search up to 10 lines from
the definition line for the parameter's own token, defaulting to the
definition line at column 0. -/
def calculateParameterPosition (paramName : String) (lines : List String)
    (startLine : Nat) : Nat × Nat :=
  let window := (lines.enum.drop startLine).take (min (startLine + 10) lines.length - startLine)
  match calcLoop paramName window with
  | some r => r
  | none => (startLine, 0)

/-- `SassParser.parseParameter`. -/
def parseParameter (token : String) (lines : List String) (baseLine : Nat) :
    Option MixinParameter :=
  match (scanLine paramTokenAt token).head? with
  | none => none
  | some (_, (nm, dv)) =>
    let defaultValue := dv.bind (fun s => let t := jsTrim s; if t = "" then none else some t)
    let pos := calculateParameterPosition nm lines baseLine
    some ⟨nm, defaultValue, pos.1, pos.2⟩

/-- `SassParser.parseMixinParameters`. -/
def parseMixinParameters (content : String) (startLine : Nat) : List MixinParameter :=
  let lines := splitLines content
  match extractArgumentsString lines startLine with
  | none => []
  | some args =>
    if jsTrim args = "" then []
    else (splitArguments args).filterMap (fun tok => parseParameter tok lines startLine)

/-- The line loop of `findMixinDefinition` (parameter-aware version). -/
def fmdLoop (content : String) (mixinName : String) (filePath : Path) :
    List (Nat × String) → Option MixinDefinition
  | [] => none
  | (ln, line) :: rest =>
    if strStarts (jsTrim line) "//" then fmdLoop content mixinName filePath rest
    else
      match (scanLine mixinAt line).find? (fun m => m.2 = mixinName) with
      | some m =>
        some ⟨mixinName, filePath, ln, m.1, some (parseMixinParameters content ln)⟩
      | none => fmdLoop content mixinName filePath rest

/-- `SassParser.findMixinDefinition`. -/
def findMixinDefinition (content : String) (mixinName : String) (filePath : Path) :
    Option MixinDefinition :=
  fmdLoop content mixinName filePath (splitLines content).enum

/-- `SassParser.findAllMixinDefinitionsWithParams`. -/
def findAllMixinDefinitionsWithParams (content : String) (filePath : Path) :
    List MixinDefinition :=
  (splitLines content).enum.flatMap (fun p =>
    if strStarts (jsTrim p.2) "//" then []
    else (scanLine mixinAt p.2).map (fun m =>
      ⟨m.2, filePath, p.1, m.1, some (parseMixinParameters content p.1)⟩))

/-- The line loop of `findVariableDefinition`. -/
def fvdLoop (variableName : String) (filePath : Path) :
    List (Nat × String) → Option VariableDefinition
  | [] => none
  | (ln, line) :: rest =>
    if strStarts (jsTrim line) "//" then fvdLoop variableName filePath rest
    else
      match (scanLine (varDefAt variableName.data) line).head? with
      | some m => some ⟨variableName, filePath, ln, m.1, none⟩
      | none => fvdLoop variableName filePath rest

/-- `SassParser.findVariableDefinition` (the variable name carries its
sigil; the escaping of `$` only makes the name a literal pattern). -/
def findVariableDefinition (content : String) (variableName : String) (filePath : Path) :
    Option VariableDefinition :=
  fvdLoop variableName filePath (splitLines content).enum

/-- Value text of one variable match: from right after the colon to the
statement terminator on the line (or the line end), trimmed; an empty
value becomes `none` (`value || undefined`). -/
def varValue (afterColon : List Char) : Option String :=
  let raw :=
    match afterColon.findIdx? (fun c => c = ';') with
    | some i => jsTrim (String.mk (afterColon.take i))
    | none => jsTrim (String.mk afterColon)
  if raw = "" then none else some raw

/-- The stateful line loop of `findAllVariableDefinitions` (block-comment
tracking). -/
def favLoop (filePath : Path) : List (Nat × String) → Bool → List VariableDefinition
  | [], _ => []
  | (ln, line) :: rest, inBlock =>
    let inBlock1 := if containsSub line "/*" then true else inBlock
    if containsSub line "*/" then favLoop filePath rest false
    else if inBlock1 then favLoop filePath rest inBlock1
    else if strStarts (jsTrim line) "//" then favLoop filePath rest inBlock1
    else
      ((scanLine varAt line).map (fun m =>
        (⟨m.2.1, filePath, ln, m.1, varValue m.2.2⟩ : VariableDefinition)))
        ++ favLoop filePath rest inBlock1

/-- `SassParser.findAllVariableDefinitions`. -/
def findAllVariableDefinitions (content : String) (filePath : Path) :
    List VariableDefinition :=
  favLoop filePath (splitLines content).enum false

/-! ## ForwardResolver -/

/-- Result of the goal-directed re-export search. -/
structure Hop where
  originalName : String
  filePath : Path
  deriving DecidableEq, Repr

/-- The per-declaration rename handling of `findForwardedMember`: with no
rename string the member name passes through; otherwise the name (sigil
set aside) must start with the rename string, which is stripped. -/
def stripPfx (pfx : Option String) (memberName : String) : Option String :=
  match pfx with
  | none => some memberName
  | some p =>
    let isVariable := strStarts memberName "$"
    let nameWithoutDollar := if isVariable then memberName.drop 1 else memberName
    if strStarts nameWithoutDollar p then
      let baseName := nameWithoutDollar.drop p.length
      some (if isVariable then "$" ++ baseName else baseName)
    else none

/-- The declaration loop of `findForwardedMember`, parameterized by the
recursive call (which already carries the updated visited set). -/
def goFwd (recur : String → String → Path → Except Unit (Option Hop))
    (fs : FS) (workspaceRoot : Path) (memberName : String) (cur : Path) :
    List ForwardStatement → Except Unit (Option Hop)
  | [] => .ok none
  | stmt :: rest =>
    match stripPfx stmt.pfx memberName with
    | none => goFwd recur fs workspaceRoot memberName cur rest
    | some originalName =>
      match resolveModule fs stmt.path cur workspaceRoot with
      | none => goFwd recur fs workspaceRoot memberName cur rest
      | some resolvedPath =>
        match readFileE fs resolvedPath with
        | .error e => .error e
        | .ok forwardedContent =>
          match recur forwardedContent originalName resolvedPath with
          | .error e => .error e
          | .ok (some nested) => .ok (some nested)
          | .ok none => .ok (some ⟨originalName, resolvedPath⟩)

/-- `ForwardResolver.findForwardedMember`.  The visited set is threaded
explicitly: the `finally` removal in the source restores, on every exit
path, exactly the set the caller held, which is what immutable threading
gives.  The fuel only caps the recursion depth; every theorem below holds
for all fuels above the depth the input actually needs. -/
def findForwardedMember (fs : FS) (workspaceRoot : Path) :
    Nat → List Path → String → String → Path → Except Unit (Option Hop)
  | 0, _, _, _, _ => .ok none
  | fuel + 1, visited, content, memberName, currentFilePath =>
    if visited.contains currentFilePath then .ok none
    else
      goFwd
        (fun c n p =>
          findForwardedMember fs workspaceRoot fuel (currentFilePath :: visited) c n p)
        fs workspaceRoot memberName currentFilePath (parseForwardStatements content)

/-- A member collected by the enumeration traversal. -/
inductive Member
  | mixin : MixinDefinition → Member
  | var : VariableDefinition → Member
  deriving DecidableEq, Repr

/-- The `name` field of either member kind. -/
def Member.name : Member → String
  | .mixin m => m.name
  | .var v => v.name

/-- The in-place rename `member.name = ...` as record update. -/
def Member.setName : Member → String → Member
  | .mixin m, n => .mixin { m with name := n }
  | .var v, n => .var { v with name := n }

/-- Apply one rename string to a member name, reattaching the sigil. -/
def applyPfx (p : String) (n : String) : String :=
  if strStarts n "$" then "$" ++ p ++ n.drop 1 else p ++ n

/-- Direct definitions of the requested kind in one file. -/
def directKind (ty : String) (content : String) (p : Path) : List Member :=
  if ty = "mixin" then (findAllMixinDefinitionsWithParams content p).map Member.mixin
  else (findAllVariableDefinitions content p).map Member.var

/-- Privacy filter plus rename for directly collected members. -/
def pfxFilterDirect (pfx : Option String) (members : List Member) : List Member :=
  members.filterMap (fun mem =>
    let n := mem.name
    let isVariable := strStarts n "$"
    let nameWithoutDollar := if isVariable then n.drop 1 else n
    if strStarts nameWithoutDollar "_" then none
    else some (match pfx with | none => mem | some p => mem.setName (applyPfx p n)))

/-- Rename application for members coming out of the nested recursion. -/
def applyPfxNested (pfx : Option String) (members : List Member) : List Member :=
  members.map (fun mem =>
    match pfx with | none => mem | some p => mem.setName (applyPfx p mem.name))

/-- The declaration loop of `findAllForwardedMembers`. -/
def goAll (recurAll : String → Path → Except Unit (List Member))
    (fs : FS) (workspaceRoot : Path) (cur : Path) (ty : String) :
    List ForwardStatement → Except Unit (List Member)
  | [] => .ok []
  | stmt :: rest =>
    match resolveModule fs stmt.path cur workspaceRoot with
    | none => goAll recurAll fs workspaceRoot cur ty rest
    | some resolvedPath =>
      match readFileE fs resolvedPath with
      | .error e => .error e
      | .ok forwardedContent =>
        let direct := pfxFilterDirect stmt.pfx (directKind ty forwardedContent resolvedPath)
        match recurAll forwardedContent resolvedPath with
        | .error e => .error e
        | .ok nested =>
          match goAll recurAll fs workspaceRoot cur ty rest with
          | .error e => .error e
          | .ok more => .ok (direct ++ applyPfxNested stmt.pfx nested ++ more)

/-- `ForwardResolver.findAllForwardedMembers` (`ty` is the source's
`"mixin" | "variable"` string). -/
def findAllForwardedMembers (fs : FS) (workspaceRoot : Path) :
    Nat → List Path → String → Path → String → Except Unit (List Member)
  | 0, _, _, _, _ => .ok []
  | fuel + 1, visited, content, currentFilePath, ty =>
    if visited.contains currentFilePath then .ok []
    else
      goAll
        (fun c p =>
          findAllForwardedMembers fs workspaceRoot fuel (currentFilePath :: visited) c p ty)
        fs workspaceRoot currentFilePath ty (parseForwardStatements content)

/-! ## SassDefinitionProvider -/

/-- A resolved source location (0-indexed line/column). -/
structure Location where
  filePath : Path
  line : Nat
  column : Nat
  deriving DecidableEq, Repr

/-- The context extracted from the cursor position (`cursorTarget` keeps
the source's string values `"namespace"` / `"member"`). -/
structure ResolutionContext where
  token : String
  ns : String
  member : String
  currentFilePath : Path
  workspaceRoot : Path
  cursorTarget : String
  deriving DecidableEq, Repr

/-- The body of `SassDefinitionProvider.resolveDefinition`, before its
`catch` (exceptions propagate as `Except.error`). -/
def resolveDefinitionE (fs : FS) (ctx : ResolutionContext) (fuel : Nat) :
    Except Unit (Option Location) := do
  let currentContent ← readFileE fs ctx.currentFilePath
  match findUseByNamespace currentContent ctx.ns with
  | none => return none
  | some useStatement =>
    match resolveModule fs useStatement.path ctx.currentFilePath ctx.workspaceRoot with
    | none => return none
    | some moduleFilePath =>
      if ctx.cursorTarget = "namespace" then
        return some ⟨moduleFilePath, 0, 0⟩
      else do
        let moduleContent ← readFileE fs moduleFilePath
        let isVariable := strStarts ctx.member "$"
        let fwd ← findForwardedMember fs ctx.workspaceRoot fuel [] moduleContent
          ctx.member moduleFilePath
        let target : Path × String :=
          match fwd with
          | some r => (r.filePath, r.originalName)
          | none => (moduleFilePath, ctx.member)
        let targetContent ← readFileE fs target.1
        if isVariable then
          match findVariableDefinition targetContent target.2 target.1 with
          | none => return none
          | some d => return some ⟨d.filePath, d.line, d.column⟩
        else
          match findMixinDefinition targetContent target.2 target.1 with
          | none => return none
          | some d => return some ⟨d.filePath, d.line, d.column⟩

/-- `SassDefinitionProvider.resolveDefinition`: the `try`/`catch` around
the body normalizes any thrown error to "no definition". -/
def resolveDefinition (fs : FS) (ctx : ResolutionContext) (fuel : Nat) : Option Location :=
  match resolveDefinitionE fs ctx fuel with
  | .ok r => r
  | .error _ => none

/-- The mixin-argument context handed to `resolveArgumentDefinition`. -/
structure IncludeContext where
  ns : String
  mixinName : String
  argumentName : String
  deriving DecidableEq, Repr

/-- `SassDefinitionProvider.resolveArgumentDefinition` (no internal catch;
exceptions propagate to `provideDefinition`). -/
def resolveArgumentDefinitionE (fs : FS) (ic : IncludeContext) (currentFilePath : Path)
    (workspaceRoot : Path) (fuel : Nat) : Except Unit (Option Location) := do
  let currentContent ← readFileE fs currentFilePath
  match findUseByNamespace currentContent ic.ns with
  | none => return none
  | some useStatement =>
    match resolveModule fs useStatement.path currentFilePath workspaceRoot with
    | none => return none
    | some moduleFilePath => do
      let moduleContent ← readFileE fs moduleFilePath
      let fwd ← findForwardedMember fs workspaceRoot fuel [] moduleContent
        ic.mixinName moduleFilePath
      let targetFilePath := match fwd with | some r => r.filePath | none => moduleFilePath
      let targetMixinName := match fwd with | some r => r.originalName | none => ic.mixinName
      let targetContent ← readFileE fs targetFilePath
      match findMixinDefinition targetContent targetMixinName targetFilePath with
      | none => return none
      | some mixinDef =>
        match mixinDef.parameters with
        | none => return none
        | some params =>
          if params.length = 0 then return none
          else
            match params.find? (fun p => p.name = ic.argumentName) with
            | none => return none
            | some targetParam =>
              return some ⟨targetFilePath, targetParam.line, targetParam.column⟩

/-- The host-editor document handed to the provider. -/
structure Document where
  text : String
  filePath : Path
  workspaceRoot : Option Path
  deriving Repr

/-- A 0-indexed cursor position. -/
structure Position where
  line : Nat
  character : Nat
  deriving DecidableEq, Repr

/-- `document.lineAt(n).text`. -/
def lineAt (doc : Document) (ln : Nat) : String :=
  ((splitLines doc.text)[ln]?).getD ""

/-- The `[\w$.-]` test of the cursor-validity check. -/
def testDotted (c : Char) : Bool := isWordHy c || c = '$' || c = '.'

/-- The `[\w$-]` token character class. -/
def testTok (c : Char) : Bool := isWordHy c || c = '$'

/-- Character test at an index (out of range fails). -/
def charTest (l : List Char) (i : Nat) (p : Char → Bool) : Bool :=
  match l[i]? with
  | some c => p c
  | none => false

/-- `while (start > 0 && p(line[start-1])) start--`. -/
def scanBack (l : List Char) (p : Char → Bool) : Nat → Nat
  | 0 => 0
  | i + 1 => if charTest l i p then scanBack l p i else i + 1

/-- Forward scan helper. -/
def scanFwdAux : List Char → (Char → Bool) → Nat → Nat
  | [], _, i => i
  | c :: tl, p, i => if p c then scanFwdAux tl p (i + 1) else i

/-- `while (end < line.length && p(line[end])) end++`. -/
def scanFwd (l : List Char) (p : Char → Bool) (i : Nat) : Nat :=
  scanFwdAux (l.drop i) p i

/-- `SassDefinitionProvider.extractContext`. -/
def extractContext (doc : Document) (pos : Position) : Option ResolutionContext :=
  let line := lineAt doc pos.line
  let l := line.data
  let len := l.length
  let cursorChar := pos.character
  let ok1 :=
    if cursorChar ≥ len || !(charTest l cursorChar testDotted) then
      decide (0 < cursorChar) && charTest l (cursorChar - 1) testTok
    else true
  if !ok1 then none
  else
    let start0? : Option Nat :=
      if decide (cursorChar < len) && charTest l cursorChar testTok then some cursorChar
      else if decide (0 < cursorChar) && charTest l (cursorChar - 1) testTok then
        some (cursorChar - 1)
      else none
    match start0? with
    | none => none
    | some start0 =>
      let start1 := scanBack l testTok start0
      let start2 :=
        if decide (0 < start1) && decide (l[start1 - 1]? = some '.') then
          scanBack l isWordHy (start1 - 1)
        else start1
      let endPos := scanFwd l testTok cursorChar
      let token := String.mk ((l.drop start2).take (endPos - start2))
      match token.data.findIdx? (fun c => c = '.') with
      | none => none
      | some dotIndex =>
        let nsStr := String.mk (token.data.take dotIndex)
        let memberStr := String.mk (token.data.drop (dotIndex + 1))
        if nsStr = "" ∨ memberStr = "" then none
        else
          let cursorInToken := cursorChar - start2
          let cursorTarget := if cursorInToken ≤ dotIndex then "namespace" else "member"
          match doc.workspaceRoot with
          | none => none
          | some root =>
            some ⟨token, nsStr, memberStr, doc.filePath, root, cursorTarget⟩

/-- One match of the `@include` call pattern at the current position. -/
def includeAt (l : List Char) : Option ((String × String) × List Char) :=
  match dropLit "@include".data l with
  | none => none
  | some r1 =>
    match take1 isSpaceJS r1 with
    | none => none
    | some (_, r2) =>
      match take1 isWordHy r2 with
      | none => none
      | some (nsRun, r3) =>
        match uncons r3 with
        | none => none
        | some (c, r4) =>
          if c = '.' then
            match take1 isWordHy r4 with
            | none => none
            | some (mixRun, r5) =>
              match uncons (skipMany isSpaceJS r5) with
              | some (c2, r7) =>
                if c2 = '(' then some ((String.mk nsRun, String.mk mixRun), r7) else none
              | none => none
          else none

/-- The depth loop of `findMatchingParen`. -/
def fmpLoop : List Char → Int → Nat → Option Nat
  | [], _, _ => none
  | c :: tl, depth, i =>
    let d1 := if c = '(' then depth + 1 else depth
    if c = ')' then
      if d1 - 1 = 0 then some i else fmpLoop tl (d1 - 1) (i + 1)
    else fmpLoop tl d1 (i + 1)

/-- `SassDefinitionProvider.findMatchingParen`. -/
def findMatchingParen (l : List Char) (startIndex : Nat) : Option Nat :=
  fmpLoop (l.drop startIndex) 0 startIndex

/-- One match of the argument-name pattern `\$\s*([\w-]+)`; the second
component is the full match length (for the cursor containment test). -/
def argNameAt (l : List Char) : Option ((String × Nat) × List Char) :=
  match uncons l with
  | none => none
  | some (d, r1) =>
    if d = '$' then
      match take1 isWordHy (skipMany isSpaceJS r1) with
      | some (nm, r2) => some ((String.mk nm, l.length - r2.length), r2)
      | none => none
    else none

/-- `SassDefinitionProvider.extractArgumentNameAtCursor`. -/
def extractArgumentNameAtCursor (l : List Char) (cursorPos argsStart argsEnd : Nat) :
    Option String :=
  let argsString := (l.drop (argsStart + 1)).take (argsEnd - (argsStart + 1))
  let relativePos := cursorPos - argsStart - 1
  ((scanAt argNameAt (argsString.length + 1) 0 argsString).find? (fun m =>
      decide (m.1 ≤ relativePos) && decide (relativePos ≤ m.1 + m.2.2))).map
    (fun m => m.2.1)

/-- `SassDefinitionProvider.extractIncludeCallContext`. -/
def extractIncludeCallContext (doc : Document) (pos : Position) : Option IncludeContext :=
  let line := lineAt doc pos.line
  let l := line.data
  let cursorChar := pos.character
  (scanLine includeAt line).findSome? (fun m =>
    let matchStart := m.1
    match (l.drop matchStart).findIdx? (fun c => c = '(') with
    | none => none
    | some rel =>
      let parenStart := matchStart + rel
      match findMatchingParen l parenStart with
      | none => none
      | some parenEnd =>
        if cursorChar ≤ parenStart ∨ parenEnd ≤ cursorChar then none
        else
          match extractArgumentNameAtCursor l cursorChar parenStart parenEnd with
          | none => none
          | some argumentName => some ⟨m.2.1, m.2.2, argumentName⟩)

/-- The body of `SassDefinitionProvider.provideDefinition`, before its
outer `catch`: the argument branch may propagate an exception, while the
member branch already caught internally. -/
def provideDefinitionE (fs : FS) (doc : Document) (pos : Position) (fuel : Nat) :
    Except Unit (Option Location) :=
  match extractIncludeCallContext doc pos with
  | some ic =>
    match doc.workspaceRoot with
    | none => .ok none
    | some root => resolveArgumentDefinitionE fs ic doc.filePath root fuel
  | none =>
    match extractContext doc pos with
    | none => .ok none
    | some ctx => .ok (resolveDefinition fs ctx fuel)

/-- `SassDefinitionProvider.provideDefinition` with its outer `catch`. -/
def provideDefinition (fs : FS) (doc : Document) (pos : Position) (fuel : Nat) :
    Option Location :=
  match provideDefinitionE fs doc pos fuel with
  | .ok r => r
  | .error _ => none

/-! ## Concrete workspaces used by the theorems -/

/-- Workspace root shared by the concrete scenarios. -/
def wsRoot : Path := ["ws"]

/-- The document issuing the lookups. -/
def mainPath : Path := ["ws", "main.scss"]

/-- First stylesheet file. -/
def aPath : Path := ["ws", "a.scss"]

/-- Second stylesheet file. -/
def bPath : Path := ["ws", "b.scss"]

/-- Third stylesheet file. -/
def cPath : Path := ["ws", "c.scss"]

/-- C2 fixture: `a.scss` re-exports `b.scss` under the rename `p-`. -/
def cC2A : String := "@forward \"./b\" as p-*;"

/-- C2 fixture: `b.scss` defines mixin `reset`. -/
def cC2B : String := "@mixin reset() \x7b\x7d"

/-- C2 fixture: the consuming document. -/
def cC2Main : String := "@use \"./a\" as A;\n.x \x7b @include A.p-reset; \x7d"

/-- C2 fixture file system. -/
def fsC2 : FS := ⟨[(mainPath, cC2Main), (aPath, cC2A), (bPath, cC2B)], [], []⟩

/-- C3 fixture: `a.scss` re-exports `b.scss` as `p-*`. -/
def cC3A : String := "@forward \"./b\" as p-*;"

/-- C3 fixture: `b.scss` re-exports `c.scss` as `q-*`. -/
def cC3B : String := "@forward \"./c\" as q-*;"

/-- C3 fixture: `c.scss` defines variable `$primary`. -/
def cC3C : String := "$primary: #000;"

/-- C3 fixture file system. -/
def fsC3 : FS := ⟨[(aPath, cC3A), (bPath, cC3B), (cPath, cC3C)], [], []⟩

/-- C4 fixture: `a.scss` forwards to `b.scss`. -/
def cC4A : String := "@forward \"./b\";"

/-- C4 fixture: `b.scss` forwards back to `a.scss`. -/
def cC4B : String := "@forward \"./a\";"

/-- C4 fixture file system (a two-file re-export cycle). -/
def fsC4 : FS := ⟨[(aPath, cC4A), (bPath, cC4B)], [], []⟩

/-- C5 fixture: `a.scss` forwards to `b.scss` without rename. -/
def cC5A : String := "@forward \"./b\";"

/-- C5 fixture: `b.scss` holds only private definitions. -/
def cC5B : String := "@mixin _internal() \x7b\x7d\n$_hidden: 1;"

/-- C5 fixture file system. -/
def fsC5 : FS := ⟨[(aPath, cC5A), (bPath, cC5B)], [], []⟩

/-- C6 fixture: the consuming document `@use "./a" as m;`. -/
def cC6Main : String := "@use \"./a\" as m;\n.x \x7b @include m.go; \x7d"

/-- C6 fixture: `a.scss` defines `@mixin go` behind two columns of
indentation, so the `@mixin` keyword starts at column 2 and the name `go`
at column 9. -/
def cC6A : String := "  @mixin go() \x7b\x7d"

/-- C6 fixture file system. -/
def fsC6 : FS := ⟨[(mainPath, cC6Main), (aPath, cC6A)], [], []⟩

/-- C6 resolution context: cursor on the member part of `m.go`. -/
def ctxC6 : ResolutionContext := ⟨"m.go", "m", "go", mainPath, wsRoot, "member"⟩

/-- C7 fixture: the consuming document. -/
def cC7Main : String := "@use \"./b\" as m;"

/-- C7 fixture: `b.scss` defines mixin `button` with default-valued
parameters laid out on their own lines. -/
def cC7B : String := "@mixin button(\n  $size: medium,\n  $variant: solid\n) \x7b\n\x7d"

/-- C7 fixture file system. -/
def fsC7 : FS := ⟨[(mainPath, cC7Main), (bPath, cC7B)], [], []⟩

/-- C8 fixture: a workspace where the package directory `pkg` offers a
flat sibling `pkg.scss`, an `_index.scss` and an `index.scss`, and its
`package.json` parses but carries neither `sass` nor `style` field. -/
def fsC8 : FS :=
  ⟨[ (["ws", "node_modules", "pkg.scss"], "flat"),
     (["ws", "node_modules", "pkg", "_index.scss"], "underscore-index"),
     (["ws", "node_modules", "pkg", "index.scss"], "plain-index"),
     (["ws", "node_modules", "pkg", "package.json"], "\x7b\x7d") ],
   [["ws"], ["ws", "node_modules"], ["ws", "node_modules", "pkg"]],
   [(["ws", "node_modules", "pkg", "package.json"], ⟨none, none⟩)]⟩

/-- C9 fixture: a context whose current file does not exist (the read at
step 1 throws). -/
def ctxC9 : ResolutionContext := ⟨"m.go", "m", "go", mainPath, wsRoot, "member"⟩

/-- C9 fixture: a document whose cursor sits on `$size` inside a mixin
call's argument list, while the file system is empty (the argument branch
throws on the first read). -/
def docC9 : Document := ⟨"@include m.button($size: 1);", mainPath, some wsRoot⟩

/-- C9 fixture: the empty file system. -/
def fsEmpty : FS := ⟨[], [], []⟩

/-- C9 fixture: a readable document with no `@use` for the alias (an
ordinary not-found, no exception). -/
def cC9NoUse : String := ".x \x7b @include m.go; \x7d"

/-- C9 not-found fixture file system. -/
def fsC9 : FS := ⟨[(mainPath, cC9NoUse)], [], []⟩

/-- C10 fixture: the consuming document; line 1 is `  @include m.go;`
with the alias `m` at column 11, the dot at column 12 and the member `go`
at columns 13-14. -/
def docC10 : Document := ⟨"@use \"./a\" as m;\n  @include m.go;", mainPath, some wsRoot⟩

/-- C10 fixture: `a.scss` defines `go` (so the module file resolves and a
member lookup would succeed). -/
def cC10A : String := "  @mixin go() \x7b\x7d"

/-- C10 fixture file system. -/
def fsC10 : FS := ⟨[(mainPath, docC10.text), (aPath, cC10A)], [], []⟩

/-- C1 fixture: a file with four re-export declarations: one whose rename
string cannot match the member `foo`, one whose module path does not
resolve, then two resolvable pass-through declarations. -/
def cC1A : String :=
  "@forward \"./x\" as zz-*;\n@forward \"./missing\";\n@forward \"./b\";\n@forward \"./c\";"

/-- C1 fixture file system. -/
def fsC1 : FS := ⟨[(aPath, cC1A), (bPath, ""), (cPath, "")], [], []⟩

/-! ## Helper lemmas -/

/-- The declaration loop commits to the first applicable declaration:
declarations whose rename does not match the member or whose module path
does not resolve are skipped, and the first declaration with both a
matching rename and a resolving path determines the whole result —
the statements after it are never examined. -/
theorem goFwd_skip
    (recur : String → String → Path → Except Unit (Option Hop))
    (fs : FS) (wsroot : Path) (m : String) (cur : Path)
    (l1 l2 : List ForwardStatement) (s : ForwardStatement) (orig : String) (r : Path)
    (hskip : ∀ t ∈ l1, stripPfx t.pfx m = none ∨ resolveModule fs t.path cur wsroot = none)
    (hpfx : stripPfx s.pfx m = some orig)
    (hres : resolveModule fs s.path cur wsroot = some r) :
    goFwd recur fs wsroot m cur (l1 ++ s :: l2) =
      match readFileE fs r with
      | .error e => .error e
      | .ok fc =>
        match recur fc orig r with
        | .error e => .error e
        | .ok (some nested) => .ok (some nested)
        | .ok none => .ok (some ⟨orig, r⟩) := by
  induction l1 with
  | nil =>
    simp only [List.nil_append, goFwd, hpfx, hres]
  | cons t l1 ih =>
    have hrest : ∀ t' ∈ l1, stripPfx t'.pfx m = none ∨
        resolveModule fs t'.path cur wsroot = none :=
      fun t' h' => hskip t' (List.mem_cons_of_mem t h')
    rcases hskip t (List.mem_cons_self t l1) with h1 | h1
    · simp only [List.cons_append, goFwd, h1]
      exact ih hrest
    · simp only [List.cons_append, goFwd]
      cases hsp : stripPfx t.pfx m with
      | none => exact ih hrest
      | some o =>
        simp only [h1]
        exact ih hrest

/-- A member name arising from a chain of renames over a direct
definition: the spine of renames applied outside-in over a base member
whose own (unsigiled) name is not private, the base being an actual
definition scanned from the content of a readable file. -/
def cleanOrigin (fs : FS) (ty : String) (mem : Member) : Prop :=
  ∃ (p : Path) (fc : String) (base : Member) (ps : List String),
    readFileE fs p = .ok fc ∧
    base ∈ directKind ty fc p ∧
    strStarts (if strStarts base.name "$" then base.name.drop 1 else base.name) "_" = false ∧
    mem = ps.foldr (fun q acc => acc.setName (applyPfx q acc.name)) base

/-- Every member produced by the enumeration loop has a clean origin,
provided the recursive call does. -/
theorem goAll_origin
    (fs : FS) (wsroot : Path) (cur : Path) (ty : String)
    (recurAll : String → Path → Except Unit (List Member))
    (hrec : ∀ c p l, recurAll c p = .ok l → ∀ mem ∈ l, cleanOrigin fs ty mem) :
    ∀ (stmts : List ForwardStatement) (l : List Member),
      goAll recurAll fs wsroot cur ty stmts = .ok l →
      ∀ mem ∈ l, cleanOrigin fs ty mem := by
  intro stmts
  induction stmts with
  | nil =>
    intro l hl mem hmem
    simp only [goAll] at hl
    cases hl
    exact absurd hmem (List.not_mem_nil mem)
  | cons stmt rest ih =>
    intro l hl mem hmem
    simp only [goAll] at hl
    cases hres : resolveModule fs stmt.path cur wsroot with
    | none =>
      rw [hres] at hl
      simp only at hl
      exact ih l hl mem hmem
    | some rp =>
      rw [hres] at hl
      simp only at hl
      cases hread : readFileE fs rp with
      | error e => rw [hread] at hl; simp only at hl; cases hl
      | ok fc =>
        rw [hread] at hl
        simp only at hl
        cases hrc : recurAll fc rp with
        | error e => rw [hrc] at hl; simp only at hl; cases hl
        | ok nested =>
          rw [hrc] at hl
          simp only at hl
          cases hgo : goAll recurAll fs wsroot cur ty rest with
          | error e => rw [hgo] at hl; simp only at hl; cases hl
          | ok more =>
            rw [hgo] at hl
            simp only at hl
            have hl' := Except.ok.inj hl
            subst hl'
            rcases List.mem_append.mp hmem with hin | hin
            · rcases List.mem_append.mp hin with hdir | hnst
              · -- collected directly from the resolved file
                rcases List.mem_filterMap.mp hdir with ⟨base, hbase, hf⟩
                simp only at hf
                cases hu : strStarts
                    (if strStarts base.name "$" then base.name.drop 1 else base.name)
                    "_" with
                | true => rw [hu] at hf; simp at hf
                | false =>
                  rw [hu] at hf
                  simp at hf
                  refine ⟨rp, fc, base, ?_, hread, hbase, hu, ?_⟩
                  · exact match stmt.pfx with | none => [] | some q => [q]
                  · cases hp : stmt.pfx with
                    | none =>
                      rw [hp] at hf
                      simp only [List.foldr]
                      exact hf.symm
                    | some q =>
                      rw [hp] at hf
                      simp only [List.foldr]
                      exact hf.symm
              · -- coming out of the nested recursion, with this rename applied
                rcases List.mem_map.mp hnst with ⟨mem1, hmem1, heq⟩
                rcases hrec fc rp nested hrc mem1 hmem1 with ⟨p0, fc0, base, ps, h1, h2, h3, h4⟩
                cases hp : stmt.pfx with
                | none =>
                  rw [hp] at heq
                  exact ⟨p0, fc0, base, ps, h1, h2, h3, heq ▸ h4⟩
                | some q =>
                  rw [hp] at heq
                  refine ⟨p0, fc0, base, q :: ps, h1, h2, h3, ?_⟩
                  simp only [List.foldr]
                  rw [← heq, h4]
            · exact ih more hgo mem hin

/-- Every member enumerated by `findAllForwardedMembers` has a clean
origin (induction over the fuel). -/
theorem findAll_origin (fs : FS) (wsroot : Path) :
    ∀ (fuel : Nat) (visited : List Path) (content : String) (cur : Path)
      (ty : String) (l : List Member),
      findAllForwardedMembers fs wsroot fuel visited content cur ty = .ok l →
      ∀ mem ∈ l, cleanOrigin fs ty mem := by
  intro fuel
  induction fuel with
  | zero =>
    intro visited content cur ty l hl mem hmem
    simp only [findAllForwardedMembers] at hl
    cases hl
    exact absurd hmem (List.not_mem_nil mem)
  | succ fuel ih =>
    intro visited content cur ty l hl mem hmem
    simp only [findAllForwardedMembers] at hl
    by_cases hv : visited.contains cur = true
    · rw [if_pos hv] at hl
      cases hl
      exact absurd hmem (List.not_mem_nil mem)
    · rw [if_neg hv] at hl
      exact goAll_origin fs wsroot cur ty _
        (fun c p l' h' => ih (cur :: visited) c p ty l' h') _ l hl mem hmem

/-! ## Claim theorems -/

/-- C1: `findForwardedMember` scans the parsed re-export declarations in
source order; every declaration whose rename string does not match the
member or whose module path does not resolve is skipped, and the first
declaration with a matching (or absent) rename and a resolving path
commits the whole search: the resolved file is read, the search recurses
into it with the stripped name, a nested hit is returned as-is, and a
nested miss still returns the hop `{originalName, resolvedPath}` — the
remaining declarations `l2` do not appear in the result at all. -/
theorem c1_first_match_commits
    (fs : FS) (wsroot : Path) (fuel : Nat) (visited : List Path)
    (content m : String) (cur : Path)
    (l1 l2 : List ForwardStatement) (s : ForwardStatement) (orig : String) (r : Path)
    (hvis : visited.contains cur = false)
    (hparse : parseForwardStatements content = l1 ++ s :: l2)
    (hskip : ∀ t ∈ l1, stripPfx t.pfx m = none ∨ resolveModule fs t.path cur wsroot = none)
    (hpfx : stripPfx s.pfx m = some orig)
    (hres : resolveModule fs s.path cur wsroot = some r) :
    findForwardedMember fs wsroot (fuel + 1) visited content m cur =
      match readFileE fs r with
      | .error e => .error e
      | .ok fc =>
        match findForwardedMember fs wsroot fuel (cur :: visited) fc orig r with
        | .error e => .error e
        | .ok (some nested) => .ok (some nested)
        | .ok none => .ok (some ⟨orig, r⟩) := by
  have h1 : findForwardedMember fs wsroot (fuel + 1) visited content m cur =
      goFwd (fun c n p => findForwardedMember fs wsroot fuel (cur :: visited) c n p)
        fs wsroot m cur (parseForwardStatements content) := by
    simp only [findForwardedMember]
    exact if_neg (fun h => by rw [hvis] at h; cases h)
  rw [h1, hparse]
  exact goFwd_skip _ fs wsroot m cur l1 l2 s orig r hskip hpfx hres

/-- C1 witness: in the concrete file `a.scss`, the first declaration's
rename `zz-` does not match `foo`, the second declaration's path does not
resolve, and the third (resolvable, pass-through) declaration commits;
the fourth declaration is behind it and ignored.  The hop `{foo, b.scss}`
is returned since `b.scss` has no further re-exports. -/
theorem c1_first_match_commits_witness :
    findForwardedMember fsC1 wsRoot (1 + 1) [] cC1A "foo" aPath =
      .ok (some ⟨"foo", bPath⟩) :=
  (c1_first_match_commits fsC1 wsRoot 1 [] cC1A "foo" aPath
    [⟨"./x", some "zz-", 0⟩, ⟨"./missing", none, 1⟩] [⟨"./c", none, 3⟩]
    ⟨"./b", none, 2⟩ "foo" bPath rfl rfl (by decide) rfl rfl).trans (by rfl)

/-- C2: resolving `p-reset` through A strips exactly one `p-` and finds
mixin `reset` in B (the re-export hop lands on `b.scss` with original
name `reset`, and the definition scan locates it there), while resolving
the unprefixed `reset` through A fails: the hop search skips the only
declaration (its rename string does not match), the fallback scan of
`a.scss` finds no definition, and the whole lookup returns nothing.  The
fuel argument is arbitrary above the two recursion levels used. -/
theorem c2_prefix_round_trip : ∀ n : Nat,
    findForwardedMember fsC2 wsRoot (n + 2) [] cC2A "p-reset" aPath =
      .ok (some ⟨"reset", bPath⟩) ∧
    findMixinDefinition cC2B "reset" bPath = some ⟨"reset", bPath, 0, 0, some []⟩ ∧
    resolveDefinition fsC2 ⟨"A.p-reset", "A", "p-reset", mainPath, wsRoot, "member"⟩ (n + 2) =
      some ⟨bPath, 0, 0⟩ ∧
    findForwardedMember fsC2 wsRoot (n + 2) [] cC2A "reset" aPath = .ok none ∧
    findMixinDefinition cC2A "reset" aPath = none ∧
    resolveDefinition fsC2 ⟨"A.reset", "A", "reset", mainPath, wsRoot, "member"⟩ (n + 2) =
      none :=
  fun _ => ⟨rfl, rfl, rfl, rfl, rfl, rfl⟩

/-- C3: with A re-exporting B as `p-*`, B re-exporting C as `q-*` and C
defining `$primary`, enumerating A's visible variables yields exactly the
one member `$p-q-primary` (outer rename applied last, around the inner
one), for every fuel above the three levels used. -/
theorem c3_nested_rename_composition : ∀ n : Nat,
    findAllForwardedMembers fsC3 wsRoot (n + 3) [] cC3A aPath "variable" =
      .ok [Member.var ⟨"$p-q-primary", cPath, 0, 0, some "#000"⟩] :=
  fun _ => rfl

/-- C4 counterexample: on the two-file cycle, `findForwardedMember` for a
member `foo` defined in neither file does not return an absent result —
it commits to the first hop chain and reports the hop `{foo, a.scss}`
(the guard stops the third visit, the innermost frame returns nothing,
and the enclosing frame still reports its hop). -/
theorem c4_counterexample :
    findForwardedMember fsC4 wsRoot 5 [] cC4A "foo" aPath ≠ .ok none := by
  show Except.ok (some (⟨"foo", aPath⟩ : Hop)) ≠ Except.ok none
  intro h
  exact Option.noConfusion (Except.ok.inj h)

/-- C4 (amended): on the cyclic graph both traversals terminate with a
result independent of the fuel beyond the number of distinct files: the
enumeration returns the empty list for both member kinds, while the
goal-directed search returns the hop `{foo, a.scss}` (not an absent
result); the subsequent definition scan is what makes the overall lookup
fail. -/
theorem c4_cycle_termination : ∀ n : Nat,
    findForwardedMember fsC4 wsRoot (n + 3) [] cC4A "foo" aPath =
      .ok (some ⟨"foo", aPath⟩) ∧
    findAllForwardedMembers fsC4 wsRoot (n + 3) [] cC4A aPath "mixin" = .ok [] ∧
    findAllForwardedMembers fsC4 wsRoot (n + 3) [] cC4A aPath "variable" = .ok [] ∧
    findMixinDefinition cC4A "foo" aPath = none ∧
    findVariableDefinition cC4A "$foo" aPath = none :=
  fun _ => ⟨rfl, rfl, rfl, rfl, rfl⟩

/-- C5: privacy.  First conjunct (for every file system, fuel, visited
set, content and member kind): every member in an enumeration result is a
rename chain over a direct definition whose own unsigiled name does not
start with an underscore — so a definition named `_internal` or `$_hidden`
never enters any enumeration result, whatever renames apply along the
chain.  The remaining conjuncts show the same private members are still
reachable by the goal-directed lookup plus definition scan when referenced
by exact name, while the enumerations of the concrete workspace (whose
only definitions are private) are empty for both kinds. -/
theorem c5_privacy :
    (∀ (fs : FS) (wsroot : Path) (fuel : Nat) (visited : List Path) (content : String)
       (cur : Path) (ty : String) (l : List Member),
       findAllForwardedMembers fs wsroot fuel visited content cur ty = .ok l →
       ∀ mem ∈ l, cleanOrigin fs ty mem) ∧
    (∀ n : Nat, findForwardedMember fsC5 wsRoot (n + 2) [] cC5A "_internal" aPath =
       .ok (some ⟨"_internal", bPath⟩)) ∧
    findMixinDefinition cC5B "_internal" bPath = some ⟨"_internal", bPath, 0, 0, some []⟩ ∧
    (∀ n : Nat, findForwardedMember fsC5 wsRoot (n + 2) [] cC5A "$_hidden" aPath =
       .ok (some ⟨"$_hidden", bPath⟩)) ∧
    findVariableDefinition cC5B "$_hidden" bPath = some ⟨"$_hidden", bPath, 1, 0, none⟩ ∧
    (∀ n : Nat, findAllForwardedMembers fsC5 wsRoot (n + 2) [] cC5A aPath "mixin" = .ok []) ∧
    (∀ n : Nat, findAllForwardedMembers fsC5 wsRoot (n + 2) [] cC5A aPath "variable" = .ok []) :=
  ⟨fun fs wsroot fuel visited content cur ty l hl mem hmem =>
      findAll_origin fs wsroot fuel visited content cur ty l hl mem hmem,
    fun _ => rfl, rfl, fun _ => rfl, rfl, fun _ => rfl, fun _ => rfl⟩

/-- C5 witness: the invariant applied to the C3 workspace, whose
enumeration is nonempty — the enumerated `$p-q-primary` is exhibited as a
rename chain over a non-private direct definition. -/
theorem c5_privacy_witness :
    cleanOrigin fsC3 "variable" (Member.var ⟨"$p-q-primary", cPath, 0, 0, some "#000"⟩) :=
  c5_privacy.1 fsC3 wsRoot 3 [] cC3A aPath "variable"
    [Member.var ⟨"$p-q-primary", cPath, 0, 0, some "#000"⟩] rfl
    (Member.var ⟨"$p-q-primary", cPath, 0, 0, some "#000"⟩) (List.mem_singleton.mpr rfl)

/-- C6 counterexample: for `@use "./a" as m;` with `a.scss` containing
`  @mixin go() {}`, resolving `m.go` returns line 0 column 2 — the column
where the `@mixin` keyword's match begins — and not column 9, where the
mixin's name `go` is written. -/
theorem c6_counterexample :
    resolveDefinition fsC6 ctxC6 2 = some ⟨aPath, 0, 2⟩ ∧
    resolveDefinition fsC6 ctxC6 2 ≠ some ⟨aPath, 0, 9⟩ :=
  ⟨rfl, by decide⟩

/-- C6 (amended): the cursor on the member part of `m.go` resolves to
`a.scss` at the line of the mixin keyword and the column at which the
`@mixin` keyword's match begins (the match start), for every fuel. -/
theorem c6_mixin_jump_position : ∀ n : Nat,
    resolveDefinition fsC6 ctxC6 (n + 1) = some ⟨aPath, 0, 2⟩ :=
  fun _ => rfl

/-- C7: for `button($size: medium, $variant: solid)` spread over several
lines, requesting argument `variant` resolves to the parameter's own
declared position (line 2, column 2, found inside the 10-line search
window), not to the mixin keyword's line-0 column-0 position, which the
second conjunct exhibits. -/
theorem c7_parameter_position : ∀ n : Nat,
    resolveArgumentDefinitionE fsC7 ⟨"m", "button", "variant"⟩ mainPath wsRoot (n + 1) =
      .ok (some ⟨bPath, 2, 2⟩) ∧
    findMixinDefinition cC7B "button" bPath =
      some ⟨"button", bPath, 0, 0,
        some [⟨"size", some "medium", 1, 2⟩, ⟨"variant", some "solid", 2, 2⟩]⟩ ∧
    (⟨bPath, 2, 2⟩ : Location) ≠ ⟨bPath, 0, 0⟩ :=
  fun _ => ⟨rfl, rfl, by decide⟩

/-- C8 counterexample: with the flat sibling `pkg.scss`, the directory
file `pkg/_index.scss` and `pkg/index.scss` all present and a manifest
with no entry field, package resolution returns `pkg/index.scss` — not
the flat `pkg.scss` that the claimed relative-style order (flat file
first) would pick. -/
theorem c8_counterexample :
    resolveModule fsC8 "pkg" mainPath wsRoot =
      some ["ws", "node_modules", "pkg", "index.scss"] ∧
    fileExists fsC8 ["ws", "node_modules", "pkg.scss"] = true ∧
    resolveModule fsC8 "pkg" mainPath wsRoot ≠ some ["ws", "node_modules", "pkg.scss"] :=
  ⟨rfl, rfl, by decide⟩

/-- C8 (amended): when the manifest branch yields nothing, the fallback
candidate list rooted at the package directory is, in this order:
`index.scss`, `_index.scss`, `index.sass`, `_index.sass` inside the
package directory, then the flat `<packageDir>.scss` / `.sass` siblings,
then the `_<packageDir>` siblings — the first existing candidate wins.
This differs from the relative-resolution order, which puts the flat
candidates first and `_index` before `index`. -/
theorem c8_fallback_order (fs : FS) (modulePath : String) (nodeModulesPath : Path)
    (h : manifestResolution fs (joinPath nodeModulesPath modulePath) = none) :
    resolveInNodeModules fs modulePath nodeModulesPath =
      ([ joinPath nodeModulesPath modulePath ++ ["index.scss"]
       , joinPath nodeModulesPath modulePath ++ ["_index.scss"]
       , joinPath nodeModulesPath modulePath ++ ["index.sass"]
       , joinPath nodeModulesPath modulePath ++ ["_index.sass"]
       , addExt (joinPath nodeModulesPath modulePath) ".scss"
       , addExt (joinPath nodeModulesPath modulePath) ".sass"
       , dirname (joinPath nodeModulesPath modulePath) ++
           ["_" ++ basename (joinPath nodeModulesPath modulePath) ++ ".scss"]
       , dirname (joinPath nodeModulesPath modulePath) ++
           ["_" ++ basename (joinPath nodeModulesPath modulePath) ++ ".sass"]
       ].find? (fileExists fs)) := by
  simp only [resolveInNodeModules, nodeModulesCandidates, h]

/-- C8 witness: the order theorem applied to the concrete workspace
(whose manifest branch is empty), with both sides evaluated. -/
theorem c8_fallback_order_witness :
    manifestResolution fsC8 (joinPath ["ws", "node_modules"] "pkg") = none ∧
    resolveInNodeModules fsC8 "pkg" ["ws", "node_modules"] =
      some ["ws", "node_modules", "pkg", "index.scss"] :=
  ⟨rfl, (c8_fallback_order fsC8 "pkg" ["ws", "node_modules"] rfl).trans (by rfl)⟩

/-- C9: the façade never throws — `resolveDefinition` is exactly the
catch of its fallible body (any `Except.error`, such as a failed file
read, becomes an absent result, and an `ok none` stays absent), and
`provideDefinition` likewise catches its body, which covers the
argument-resolution branch that has no internal catch.  The concrete
conjuncts exhibit a real I/O failure (missing current file) normalized to
an absent result on both paths, and an ordinary not-found (no `@use` for
the alias) that is an absent result without any exception. -/
theorem c9_facade_never_throws :
    (∀ (fs : FS) (ctx : ResolutionContext) (fuel : Nat),
      resolveDefinition fs ctx fuel =
        match resolveDefinitionE fs ctx fuel with
        | .ok r => r
        | .error _ => none) ∧
    (∀ (fs : FS) (doc : Document) (pos : Position) (fuel : Nat),
      provideDefinition fs doc pos fuel =
        match provideDefinitionE fs doc pos fuel with
        | .ok r => r
        | .error _ => none) ∧
    resolveDefinitionE fsEmpty ctxC9 3 = .error () ∧
    resolveDefinition fsEmpty ctxC9 3 = none ∧
    provideDefinitionE fsEmpty docC9 ⟨0, 19⟩ 3 = .error () ∧
    provideDefinition fsEmpty docC9 ⟨0, 19⟩ 3 = none ∧
    resolveDefinitionE fsC9 ctxC9 3 = .ok none ∧
    resolveDefinition fsC9 ctxC9 3 = none :=
  ⟨fun _ _ _ => rfl, fun _ _ _ _ => rfl, rfl, rfl, rfl, rfl, rfl, rfl⟩

/-- C10 counterexample: with the cursor exactly on the dot of `m.go`
(line 1, character 12 of the fixture document), token extraction returns
nothing — the forward scan stops before the dot, so the token is the bare
alias without a dot — and the lookup yields no result instead of jumping
to line 0 column 0 of the resolved module file `a.scss` (which does
resolve, as the last conjunct shows). -/
theorem c10_counterexample :
    extractContext docC10 ⟨1, 12⟩ = none ∧
    provideDefinition fsC10 docC10 ⟨1, 12⟩ 3 ≠ some ⟨aPath, 0, 0⟩ ∧
    resolveModule fsC10 "./a" mainPath wsRoot = some aPath :=
  ⟨rfl, by decide, rfl⟩

/-- C10 (amended): with the cursor exactly on the dot, the token
character class excludes the dot in the forward scan and the backward
scan stays inside the alias, so the extracted token contains no dot;
extraction fails, no include-call context applies either, and definition
lookup returns no result for every fuel — the `cursorTarget = "namespace"`
branch is never reached from this position.  A cursor one character to
the right (on the member) does resolve, showing the premise is otherwise
realizable. -/
theorem c10_cursor_on_dot : ∀ fuel : Nat,
    extractContext docC10 ⟨1, 12⟩ = none ∧
    extractIncludeCallContext docC10 ⟨1, 12⟩ = none ∧
    provideDefinition fsC10 docC10 ⟨1, 12⟩ fuel = none ∧
    provideDefinition fsC10 docC10 ⟨1, 13⟩ (fuel + 1) = some ⟨aPath, 0, 2⟩ :=
  fun _ => ⟨rfl, rfl, rfl, rfl⟩

end SassPR
